import Mathlib

/-!
# Vole: verification of the HTTP glue layer (`src/vole/vole.go`)

The development embeds the handlers registered in `main` as pure functions over
an explicit world state (file system, user registry, per-owner post index) and
an explicit response context.  Library code the handlers call is embedded too:
`crypto/md5` (RFC 1321), `fmt.Sprintf("%x", …)`, `path.Join`/`path.Clean` and the
`Abort` method of the `web` context, which writes the status line and the message
and then returns to the handler.  The package `lib/store` is not part of
the sources; its operations are modelled from the specification, and every I/O
failure they can report is an explicit input of the handler models.
-/

namespace Vole

/-! ## Bytes and MD5 (`crypto/md5`) -/

abbrev Byte := Fin 256

abbrev Bytes := List Byte

/-- Per-round left-rotation amounts of MD5. -/
def md5Shift : List Nat :=
  [7, 12, 17, 22, 7, 12, 17, 22, 7, 12, 17, 22, 7, 12, 17, 22,
   5, 9, 14, 20, 5, 9, 14, 20, 5, 9, 14, 20, 5, 9, 14, 20,
   4, 11, 16, 23, 4, 11, 16, 23, 4, 11, 16, 23, 4, 11, 16, 23,
   6, 10, 15, 21, 6, 10, 15, 21, 6, 10, 15, 21, 6, 10, 15, 21]

/-- Per-round additive constants of MD5. -/
def md5Table : List Nat :=
  [0xd76aa478, 0xe8c7b756, 0x242070db, 0xc1bdceee, 0xf57c0faf, 0x4787c62a, 0xa8304613, 0xfd469501,
   0x698098d8, 0x8b44f7af, 0xffff5bb1, 0x895cd7be, 0x6b901122, 0xfd987193, 0xa679438e, 0x49b40821,
   0xf61e2562, 0xc040b340, 0x265e5a51, 0xe9b6c7aa, 0xd62f105d, 0x02441453, 0xd8a1e681, 0xe7d3fbc8,
   0x21e1cde6, 0xc33707d6, 0xf4d50d87, 0x455a14ed, 0xa9e3e905, 0xfcefa3f8, 0x676f02d9, 0x8d2a4c8a,
   0xfffa3942, 0x8771f681, 0x6d9d6122, 0xfde5380c, 0xa4beea44, 0x4bdecfa9, 0xf6bb4b60, 0xbebfbc70,
   0x289b7ec6, 0xeaa127fa, 0xd4ef3085, 0x04881d05, 0xd9d4d039, 0xe6db99e5, 0x1fa27cf8, 0xc4ac5665,
   0xf4292244, 0x432aff97, 0xab9423a7, 0xfc93a039, 0x655b59c3, 0x8f0ccc92, 0xffeff47d, 0x85845dd1,
   0x6fa87e4f, 0xfe2ce6e0, 0xa3014314, 0x4e0811a1, 0xf7537e82, 0xbd3af235, 0x2ad7d2bb, 0xeb86d391]

/-- Truncation to an unsigned 32-bit word. -/
def w32 (x : Nat) : Nat := x % 4294967296

/-- Rotate a 32-bit word left by `c` bits. -/
def rotl32 (x c : Nat) : Nat := w32 ((x <<< c) ||| (w32 x >>> (32 - c)))

/-- Bitwise complement of a 32-bit word. -/
def not32 (x : Nat) : Nat := 4294967295 - w32 x

/-- The four chaining words of MD5. -/
structure Md5State where
  a : Nat
  b : Nat
  c : Nat
  d : Nat
deriving DecidableEq, Repr

def md5Init : Md5State := ⟨0x67452301, 0xefcdab89, 0x98badcfe, 0x10325476⟩

/-- Little-endian 32-bit word of (up to) four bytes. -/
def leWord (bs : List Nat) : Nat :=
  bs.getD 0 0 % 256 + bs.getD 1 0 % 256 * 256 + bs.getD 2 0 % 256 * 65536
    + bs.getD 3 0 % 256 * 16777216

/-- The sixteen message words of a 64-byte block. -/
def blockWords (block : List Nat) : List Nat :=
  (List.range 16).map (fun j => leWord ((block.drop (4 * j)).take 4))

/-- One of the 64 operations of the MD5 compression function. -/
def md5Round (m : List Nat) (s : Md5State) (i : Nat) : Md5State :=
  let f := if i < 16 then (s.b &&& s.c) ||| (not32 s.b &&& s.d)
    else if i < 32 then (s.d &&& s.b) ||| (not32 s.d &&& s.c)
    else if i < 48 then s.b ^^^ s.c ^^^ s.d
    else s.c ^^^ (s.b ||| not32 s.d)
  let g := if i < 16 then i
    else if i < 32 then (5 * i + 1) % 16
    else if i < 48 then (3 * i + 5) % 16
    else (7 * i) % 16
  let x := w32 (s.a + f + md5Table.getD i 0 + m.getD g 0)
  ⟨s.d, w32 (s.b + rotl32 x (md5Shift.getD i 0)), s.b, s.c⟩

/-- The MD5 compression function on one 64-byte block. -/
def md5Block (s : Md5State) (block : List Nat) : Md5State :=
  let t := (List.range 64).foldl (md5Round (blockWords block)) s
  ⟨w32 (s.a + t.a), w32 (s.b + t.b), w32 (s.c + t.c), w32 (s.d + t.d)⟩

/-- The `n` low-order bytes of `x`, least significant first. -/
def leBytes (n : Nat) (x : Nat) : Bytes :=
  (List.range n).map (fun j => Fin.ofNat ((x >>> (8 * j)) % 256))

/-- MD5 padding: a `0x80` byte, zeros up to 56 mod 64, the bit length on 8 bytes. -/
def md5Pad (msg : Bytes) : Bytes :=
  let n := msg.length
  msg ++ [128] ++ List.replicate ((119 - n % 64) % 64) 0
    ++ leBytes 8 ((8 * n) % 18446744073709551616)

/-- Run the compression function over all blocks of a padded message. -/
def md5Blocks (padded : List Nat) : Md5State :=
  (List.range (padded.length / 64)).foldl
    (fun s k => md5Block s ((padded.drop (64 * k)).take 64)) md5Init

/-- The 16-byte MD5 digest, `hash.Sum(nil)` after the bytes `msg` were written to `md5.New()`. -/
def md5Sum (msg : Bytes) : Bytes :=
  let s := md5Blocks ((md5Pad msg).map Fin.val)
  leBytes 4 s.a ++ leBytes 4 s.b ++ leBytes 4 s.c ++ leBytes 4 s.d

/-- A lowercase hexadecimal digit. -/
def hexDigit (n : Nat) : Char := "0123456789abcdef".toList.getD n '0'

/-- The verb `%x` of `fmt.Sprintf` on a byte slice: two lowercase hex digits per byte. -/
def hexEncode (bs : Bytes) : List Char :=
  bs.flatMap (fun b => [hexDigit (b.val / 16), hexDigit (b.val % 16)])

/-! ## Readers and `Md5` (vole.go:18-22) -/

/-- An `io.Reader` over a finite stream: `data` is what the stream holds, and when `failAt` is
`some k` a read reports an error once `k` bytes were delivered (instead of reaching end of
file). -/
structure Reader where
  data : Bytes
  failAt : Option Nat
deriving DecidableEq, Repr

/-- The call `io.Copy(dst, r)` seen from the reader: the bytes delivered to `dst` and whether
the copy stopped on a read error. -/
def Reader.copyOut (r : Reader) : Bytes × Bool :=
  match r.failAt with
  | none => (r.data, false)
  | some k => (r.data.take k, true)

/-- Function `Md5` of vole.go: the bytes read from `r` are written to a fresh MD5 hash (the
error of `io.Copy` is dropped) and the digest is rendered with `%x`. -/
def Md5 (r : Reader) : String :=
  let hash := md5Sum r.copyOut.1
  String.mk (hexEncode hash)

/-! ## Paths (`path.Clean`, `path.Join`) -/

/-- Split a path at every `/`. -/
def splitSlash : List Char → List (List Char)
  | [] => [[]]
  | c :: cs =>
    let r := splitSlash cs
    if c = '/' then [] :: r else (c :: r.headD []) :: r.tail

/-- Process one path element in `path.Clean`; the stack holds the kept elements, last first. -/
def cleanPush (rooted : Bool) (st : List (List Char)) (c : List Char) : List (List Char) :=
  if c = [] ∨ c = ['.'] then st
  else if c = ['.', '.'] then
    match st with
    | [] => if rooted then [] else [c]
    | t :: rest => if t = ['.', '.'] then c :: t :: rest else rest
  else c :: st

/-- Join path elements with `/`. -/
def joinSlash : List (List Char) → List Char
  | [] => []
  | [c] => c
  | c :: cs => c ++ '/' :: joinSlash cs

/-- Go's `path.Clean` on the characters of a path. -/
def cleanChars (p : List Char) : List Char :=
  let rooted := p.head? = some '/'
  let body := joinSlash ((splitSlash p).foldl (cleanPush rooted) []).reverse
  if rooted then '/' :: body else if body = [] then ['.'] else body

/-- Go's `path.Clean`. -/
def pathClean (p : String) : String := String.mk (cleanChars p.toList)

/-- Go's `path.Join`: leading empty elements are skipped, the rest is joined with `/` and
cleaned; the result is empty when every element is. -/
def pathJoin : List String → String
  | [] => ""
  | e :: es =>
    if e = "" then pathJoin es
    else pathClean (String.mk (joinSlash ((e :: es).map String.toList)))


/-- The sixteen lowercase hexadecimal digits. -/
def hexChars : List Char := "0123456789abcdef".toList

/-- A path element that `path.Clean` keeps: not empty, not `.`, and free of `/`. -/
def KeptElem (c : List Char) : Prop := c ≠ [] ∧ c ≠ ['.'] ∧ '/' ∉ c

/-- The path `dir/name` for a cleaned directory `dir`. -/
def childPath (dir name : String) : String :=
  if dir = "/" then "/" ++ name else if dir = "." then name else dir ++ "/" ++ name

/-! ## The response context of `web` -/

/-- An error value; only its message is kept. -/
abbrev Error := String

/-- What the handler has written to the response so far. -/
structure Context where
  status : Option Nat
  headers : List (String × String)
  body : String
deriving DecidableEq, Repr

/-- Method `SetHeader` of the context with `unique = true`: the header value is replaced. -/
def Context.SetHeader (ctx : Context) (hdr val : String) : Context :=
  { ctx with headers := (ctx.headers.filter (fun h => h.1 ≠ hdr)) ++ [(hdr, val)] }

/-- Method `Abort` of the context: it writes the status line (kept only when none was written
before) and the message, and returns to its caller; the handler goes on with the statement
after the call. -/
def Context.Abort (ctx : Context) (status : Nat) (body : String) : Context :=
  { ctx with status := some (ctx.status.getD status), body := ctx.body ++ body }

/-- Writing the string a handler returned: the status line defaults to 200. -/
def Context.Write (ctx : Context) (content : String) : Context :=
  { ctx with status := some (ctx.status.getD 200), body := ctx.body ++ content }

/-- Function `setJsonHeaders` (vole.go:50-53). -/
def setJsonHeaders (ctx : Context) : Context :=
  (ctx.SetHeader "Content-Type" "application/json").SetHeader "Cache-Control" "no-cache, no-store"

/-- A fresh response. -/
def Context.empty : Context := ⟨none, [], ""⟩

/-! ## Data model of `lib/store` -/

/-- A file reference of a post. -/
structure File where
  Hash : String
  Name : String
deriving DecidableEq, Repr

/-- A post. -/
structure Post where
  Id : String
  Title : String
  Files : List File
  UserId : String
  UserName : String
  UserAvatar : String
  IsMyUser : Bool
deriving DecidableEq, Repr

/-- A user record. -/
structure User where
  Id : String
  Name : String
  Path : String
deriving DecidableEq, Repr

/-- A collection of posts, newest first. -/
structure PostCollection where
  Posts : List Post
deriving DecidableEq, Repr

/-- The files of the machine, by cleaned path. -/
abbrev FileSystem := List (String × Bytes)

/-- The content of the file at `p`, when there is one. -/
def readFile (fs : FileSystem) (p : String) : Option Bytes :=
  match fs with
  | [] => none
  | (q, c) :: rest => if q = p then some c else readFile rest p

/-- Create or replace the file at `p`. -/
def writeFile (fs : FileSystem) (p : String) (b : Bytes) : FileSystem :=
  match fs with
  | [] => [(p, b)]
  | (q, c) :: rest => if q = p then (p, b) :: rest else (q, c) :: writeFile rest p b

/-- Remove the file at `p`. -/
def removeFile (fs : FileSystem) (p : String) : FileSystem :=
  match fs with
  | [] => []
  | (q, c) :: rest => if q = p then removeFile rest p else (q, c) :: removeFile rest p

/-- Everything the handlers read and write: the file system, the directory `os.TempDir()`
(the staging area), the user registry with its my-user marker, and the post index of every
owner (newest first). -/
structure World where
  TempDir : String
  fs : FileSystem
  users : List User
  myUser : Option String
  posts : List (String × List Post)
deriving DecidableEq, Repr

/-- The posts stored for the owner `uid`, newest first. -/
def postsOf (idx : List (String × List Post)) (uid : String) : List Post :=
  match idx with
  | [] => []
  | (k, ps) :: rest => if k = uid then ps else postsOf rest uid

/-- Replace the posts stored for the owner `uid`. -/
def setPostsOf (idx : List (String × List Post)) (uid : String) (ps : List Post) :
    List (String × List Post) :=
  match idx with
  | [] => [(uid, ps)]
  | (k, qs) :: rest => if k = uid then (uid, ps) :: rest else (k, qs) :: setPostsOf rest uid ps

/-! ## Operations of `lib/store` -/

/-- Modelled from the spec: `GetUserById` of the user registry, which is not in the sources;
it returns the record stored under the id or a not-found error. -/
def GetUserById (w : World) (id : String) : Except Error User :=
  match w.users.find? (fun u => u.Id = id) with
  | some u => .ok u
  | none => .error "user not found"

/-- Modelled from the spec: `GetMyUser` of the user registry, which is not in the sources; it
returns the record of the user the marker designates, or a not-found error when no marker has
been set. -/
def GetMyUser (w : World) : Except Error User :=
  match w.myUser with
  | none => .error "my user not set"
  | some id => GetUserById w id

/-- Create or update the record with the id of `u`. -/
def upsertUser (us : List User) (u : User) : List User :=
  match us with
  | [] => [u]
  | v :: rest => if v.Id = u.Id then u :: rest else v :: upsertUser rest u

/-- Modelled from the spec: `User.Save`, which is not in the sources; it persists (creates or
updates) the user record, or fails with the injected I/O error and changes nothing. -/
def User.Save (w : World) (u : User) (fault : Option Error) : Except Error World :=
  match fault with
  | some e => .error e
  | none => .ok { w with users := upsertUser w.users u }

/-- Modelled from the spec: `SetMyUser` of the user registry, which is not in the sources; it
makes `u` the one operator identity by pointing the marker at it and touches no user record,
or fails with the injected I/O error and changes nothing. -/
def SetMyUser (w : World) (u : User) (fault : Option Error) : Except Error World :=
  match fault with
  | some e => .error e
  | none => .ok { w with myUser := some u.Id }

/-- Whether `u` is the operator identity. -/
def isMyUser (w : World) (u : User) : Bool := w.myUser = some u.Id

/-- Modelled from the spec: `User.FilePath`, which is not in the sources; the file directory
dedicated to the user, inside the user's own directory. -/
def User.FilePath (u : User) : String := pathJoin [u.Path, "files"]

/-- Modelled from the spec: `User.GetPosts`, which is not in the sources; all posts owned by
the user, newest first, or the injected I/O error. -/
def User.GetPosts (w : World) (u : User) (fault : Option Error) : Except Error PostCollection :=
  match fault with
  | some e => .error e
  | none => .ok ⟨postsOf w.posts u.Id⟩

/-- Method `Collection` of a post: the collection holding just that post. -/
def Post.Collection (p : Post) : PostCollection := ⟨[p]⟩

/-- The posts after the first one whose id is `id`; none when no post has that id. -/
def olderThan (id : String) : List Post → List Post
  | [] => []
  | p :: rest => if p.Id = id then rest else olderThan id rest

/-- Modelled from the spec: `PostCollection.BeforeId`, which is not in the sources; it keeps
the posts strictly older than the post identified by `id`, keeps everything when `id` is
empty, and keeps nothing when no post has that id. -/
def PostCollection.BeforeId (c : PostCollection) (id : String) : PostCollection :=
  if id = "" then c else ⟨olderThan id c.Posts⟩

/-- Modelled from the spec: `PostCollection.Limit`, which is not in the sources; it truncates
the collection to at most `n` posts, preserving order, and to nothing when `n ≤ 0`. -/
def PostCollection.Limit (c : PostCollection) (n : Int) : PostCollection :=
  if n ≤ 0 then ⟨[]⟩ else ⟨c.Posts.take n.toNat⟩

/-- Insert a post into an owner's index: a post with the same id is replaced in place, a new
one goes first. -/
def upsertPost (ps : List Post) (p : Post) : List Post :=
  if ps.any (fun q => q.Id = p.Id) then ps.map (fun q => if q.Id = p.Id then p else q)
  else p :: ps

/-- Modelled from the spec: `Post.Delete`, which is not in the sources; it removes the post
from the collection of the owning user, or fails with the injected I/O error and changes
nothing. -/
def Post.Delete (w : World) (p : Post) (fault : Option Error) : Except Error World :=
  match fault with
  | some e => .error e
  | none =>
    .ok { w with posts := setPostsOf w.posts p.UserId
                    ((postsOf w.posts p.UserId).filter (fun q => q.Id ≠ p.Id)) }

/-- Modelled from the spec: `store.Move`, which is not in the sources; it relocates the file at
`src` to `dst`.  An injected I/O error or a missing source makes it fail and leaves both places
as they were; a destination that exists already makes it a successful no-op. -/
def Move (fs : FileSystem) (src dst : String) (fault : Option Error) : Except Error FileSystem :=
  match fault with
  | some e => .error e
  | none =>
    match readFile fs dst with
    | some _ => .ok fs
    | none =>
      match readFile fs src with
      | none => .error "no such file"
      | some b => .ok (writeFile (removeFile fs src) dst b)

/-- The commits of `Post.Save`: each referenced file is relocated from the staging directory
`tmpDir` into the file directory `dir` of the owner, in order; the first commit that fails
ends the run with its error.  `commitErr` gives the injected I/O failure by staging path. -/
def commitFiles (fs : FileSystem) (tmpDir dir : String) (commitErr : String → Option Error) :
    List File → Except Error FileSystem
  | [] => .ok fs
  | file :: rest =>
    match Move fs (pathJoin [tmpDir, file.Hash]) (pathJoin [dir, file.Hash])
        (commitErr (pathJoin [tmpDir, file.Hash])) with
    | .error e => .error e
    | .ok fs1 => commitFiles fs1 tmpDir dir commitErr rest

/-- Modelled from the spec: `Post.Save`, which is not in the sources; it assigns the id
`newId` when the post has none, commits each referenced file into the file directory of the
owning user, and persists the post record in the owner's index, the newest first.  When a
commit fails, or writing the record fails with the injected I/O error, the save as a whole
fails: no post is persisted and nothing is changed (the staged copies stay for a retry).  It
returns the new world and the post as saved. -/
def Post.Save (w : World) (p : Post) (newId : String) (fault : Option Error)
    (commitErr : String → Option Error) : Except Error (World × Post) :=
  let saved := if p.Id = "" then { p with Id := newId } else p
  match GetUserById w p.UserId with
  | .error e => .error e
  | .ok owner =>
    match commitFiles w.fs w.TempDir owner.FilePath commitErr p.Files with
    | .error e => .error e
    | .ok fs =>
      match fault with
      | some e => .error e
      | none =>
        .ok (⟨w.TempDir, fs, w.users, w.myUser,
          setPostsOf w.posts p.UserId (upsertPost (postsOf w.posts p.UserId) saved)⟩, saved)

/-- Modelled from the spec: `store.Create`, which is not in the sources; it creates the file
`name` in the directory `dir`, empty, replacing a file of that name, and returns its path as
the open file; or it fails with the injected I/O error and changes nothing. -/
def Create (fs : FileSystem) (dir name : String) (fault : Option Error) :
    Except Error (FileSystem × String) :=
  match fault with
  | some e => .error e
  | none => .ok (writeFile fs (pathJoin [dir, name]) [], pathJoin [dir, name])

/-- The call `io.Copy(tmpFile, file)`: the bytes the reader delivers are written to the open
file `dst`, up to the first `k` when the write fails after `k` bytes (`writeFault = some k`);
the second component is the error the copy reports.  A nil `dst` takes no byte and reports an
error. -/
def ioCopy (fs : FileSystem) (dst : Option String) (r : Reader) (writeFault : Option Nat) :
    FileSystem × Option Error :=
  match dst with
  | none => (fs, some "invalid argument")
  | some p =>
    match writeFault with
    | none => (writeFile fs p r.copyOut.1, if r.copyOut.2 then some "read error" else none)
    | some k => (writeFile fs p (r.copyOut.1.take k), some "short write")

/-- The JSON codec of `lib/store` (container parsing and rendering), which is not in the
sources: it is an input of the handler models. -/
structure Codec where
  decodeUser : Bytes → Except Error User
  decodePost : Bytes → Except Error Post
  userJson : User → Except Error String
  postJson : Post → Except Error String
  postsJson : PostCollection → Except Error String

/-- Modelled from the spec: `NewUserFromContainerJson`, which is not in the sources; the codec
parses and validates the payload. -/
def NewUserFromContainerJson (cdc : Codec) (body : Bytes) : Except Error User :=
  cdc.decodeUser body

/-- Modelled from the spec: `User.NewPostFromContainerJson`, which is not in the sources; the
codec parses and validates the payload into an unsaved post owned by the user. -/
def User.NewPostFromContainerJson (cdc : Codec) (u : User) (body : Bytes) : Except Error Post :=
  match cdc.decodePost body with
  | .error e => .error e
  | .ok p => .ok { p with UserId := u.Id }

/-! ## Handler state -/

/-- A call into `lib/store` that changes persistent state. -/
inductive Call where
  | UserSave (u : User)
  | SetMyUser (u : User)
  | PostSave (p : Post)
  | PostDelete (p : Post)
  | Move (src dst : String)
  | Create (dir name : String)
deriving DecidableEq, Repr

/-- The state a handler runs in: the world, the response and the store calls made so far. -/
structure HState where
  world : World
  ctx : Context
  calls : List Call
deriving DecidableEq, Repr

/-- How a handler run ended: `ret` is the string the handler returned, or `none` when the
handler panicked (a nil dereference or an index out of range). -/
structure Handled where
  st : HState
  ret : Option String
deriving DecidableEq, Repr

def HState.Abort (s : HState) (status : Nat) (body : String) : HState :=
  { s with ctx := s.ctx.Abort status body }

def HState.call (s : HState) (c : Call) : HState :=
  { s with calls := s.calls ++ [c] }

def HState.returns (s : HState) (r : String) : Handled := ⟨s, some r⟩

def HState.panics (s : HState) : Handled := ⟨s, none⟩

/-- The response the client receives: the route handler of `web` answers a panic with
`Abort(500, "Server Error")` and writes a returned string to the body. -/
def Handled.response (h : Handled) : Context :=
  match h.ret with
  | none => h.st.ctx.Abort 500 "Server Error"
  | some content => h.st.ctx.Write content

/-- A handler run starting from a fresh response. -/
def HState.start (w : World) : HState := ⟨w, Context.empty, []⟩

/-! ## `POST /file/upload` (vole.go:252-285) -/

/-- The I/O failures an upload can meet: opening the uploaded part, a read error while hashing
(after that many bytes), creating the staging file, a read error while copying (after that many
bytes), a write error while copying (after that many bytes). -/
structure UploadFaults where
  openErr : Option Error
  hashRead : Option Nat
  createErr : Option Error
  copyRead : Option Nat
  copyWrite : Option Nat
deriving DecidableEq, Repr

/-- An upload in which every read, the creation of the staging file and the copy succeed. -/
def UploadFaults.none : UploadFaults := ⟨Option.none, Option.none, Option.none, Option.none, Option.none⟩

/-- The response body of a finished upload (vole.go:284). -/
def hashJson (hash : String) : String := "\x7b \"hash\": \"" ++ hash ++ "\" \x7d"

/-- The staging path of the blob named `hash`. -/
def stagingPath (w : World) (hash : String) : String := pathJoin [w.TempDir, hash]

/-- The handler of `POST /file/upload`.  `files` are the uploaded parts named `file`; the
handler takes the first, and panics when there is none.  The uploaded part is read twice from
its start, once by `Md5` and, after `Seek(0, SEEK_SET)`, once by `io.Copy`.  A part that could
not be opened is nil, and reading it panics; a staging file that could not be created is nil,
and the copy into it fails. -/
def fileUpload (f : UploadFaults) (files : List Bytes) (s : HState) : Handled :=
  match files with
  | [] => s.panics
  | content :: _ =>
    match f.openErr with
    | some e => (s.Abort 500 ("Error reading file: " ++ e)).panics
    | Option.none =>
      let hash := Md5 ⟨content, f.hashRead⟩
      let s := s.call (.Create s.world.TempDir hash)
      let (s, tmpFile) :=
        match Create s.world.fs s.world.TempDir hash f.createErr with
        | .error e => (s.Abort 500 ("Error creating temp file: " ++ e), Option.none)
        | .ok (fs, p) => ({ s with world := { s.world with fs := fs } }, some p)
      let copied := ioCopy s.world.fs tmpFile ⟨content, f.copyRead⟩ f.copyWrite
      let s := { s with world := { s.world with fs := copied.1 } }
      let s :=
        match copied.2 with
        | some e => s.Abort 500 ("Error creating temp file: " ++ e)
        | Option.none => s
      let s := { s with ctx := setJsonHeaders s.ctx }
      s.returns (hashJson hash)

/-! ## `GET /api/posts` (vole.go:74-118) -/

/-- The value of a request parameter, empty when the parameter is absent. -/
def param (params : List (String × String)) (key : String) : String :=
  match params with
  | [] => ""
  | (k, v) :: rest => if k = key then v else param rest key

/-- The welcome post (vole.go:102-104). -/
def welcomePost : Post :=
  { Id := "none"
    Title := "Welcome to Vole. To start, create a new profile by clicking 'My Profile' on the left."
    Files := []
    UserId := "none"
    UserName := "Welcome"
    UserAvatar := ""
    IsMyUser := false }

/-- The branch without a `user` parameter (vole.go:99-106): `timeline` is what
`userStore.GetPosts()` returned. -/
def timelineOrWelcome (timeline : Except Error PostCollection) : PostCollection :=
  match timeline with
  | .error _ => welcomePost.Collection
  | .ok allPosts => if allPosts.Posts.length < 1 then welcomePost.Collection else allPosts

/-- The cursor and the page size applied in the handler's order (vole.go:109-110). -/
def page (allPosts : PostCollection) (before : String) (limit : Int) : PostCollection :=
  (allPosts.BeforeId before).Limit limit

/-- The end of the handler (vole.go:109-117). -/
def renderPosts (cdc : Codec) (allPosts : PostCollection) (before : String) (limit : Int)
    (s : HState) : Handled :=
  match cdc.postsJson (page allPosts before limit) with
  | .error _ => (s.Abort 500 "Error getting posts as json.").returns ""
  | .ok postsJson => s.returns postsJson

/-- The handler of `GET /api/posts`.  `pageSize` is `config.UI.PageSize`, `getPostsErr` the
I/O failure of `user.GetPosts()` and `timeline` the result of `userStore.GetPosts()`.  A
collection returned alongside an error is nil, and `BeforeId` on it panics. -/
def getPosts (cdc : Codec) (pageSize : Int) (params : List (String × String))
    (getPostsErr : Option Error) (timeline : Except Error PostCollection) (s : HState) :
    Handled :=
  let s := { s with ctx := setJsonHeaders s.ctx }
  let limit := pageSize
  let before := param params "before"
  let userId := param params "user"
  if userId ≠ "" then
    match (if userId = "my_user" then GetMyUser s.world else GetUserById s.world userId) with
    | .error _ => (s.Abort 500 "User not found while getting posts.").returns ""
    | .ok user =>
      match user.GetPosts s.world getPostsErr with
      | .error _ => (s.Abort 500 "Error loading posts.").panics
      | .ok allPosts => renderPosts cdc allPosts before limit s
  else
    renderPosts cdc (timelineOrWelcome timeline) before limit s

/-! ## `POST /api/users` (vole.go:148-171) -/

/-- The I/O failures of `POST /api/users`. -/
structure UserFaults where
  readBody : Option Error
  save : Option Error
  setMyUser : Option Error
deriving DecidableEq, Repr

/-- A request to `POST /api/users` in which no I/O fails. -/
def UserFaults.none : UserFaults := ⟨Option.none, Option.none, Option.none⟩

/-- The handler of `POST /api/users`; `body` is what `ioutil.ReadAll` returned.  No `Abort` is
followed by a `return`: after a failed `Save` the handler goes on to `SetMyUser`.  The user
returned alongside a validation error is nil, and `Save` on it panics. -/
def postUsers (cdc : Codec) (f : UserFaults) (body : Bytes) (s : HState) : Handled :=
  let s := { s with ctx := setJsonHeaders s.ctx }
  let s :=
    match f.readBody with
    | some _ => s.Abort 500 "Error reading request body."
    | Option.none => s
  match NewUserFromContainerJson cdc body with
  | .error _ => (s.Abort 500 "Invalid JSON").panics
  | .ok user =>
    let s := s.call (.UserSave user)
    let s :=
      match user.Save s.world f.save with
      | .error _ => s.Abort 500 "Error saving user"
      | .ok w => { s with world := w }
    let s := s.call (.SetMyUser user)
    let s :=
      match SetMyUser s.world user f.setMyUser with
      | .error _ => s.Abort 500 "Error setting my user"
      | .ok w => { s with world := w }
    match cdc.userJson user with
    | .error _ => (s.Abort 500 "Could not create container").returns ""
    | .ok userJson => s.returns userJson

/-! ## `POST /api/posts` (vole.go:173-211) -/

/-- What a request to `POST /api/posts` meets outside the handler: the failure of reading the
body, the id the store assigns to a post that has none, the failure of writing the post
record, the failure of a commit inside `Post.Save` by staging path, and the failure of a
`store.Move` of the handler by source path. -/
structure PostEnv where
  readBody : Option Error
  newId : String
  save : Option Error
  commit : String → Option Error
  move : String → Option Error

/-- A request to `POST /api/posts` in which no I/O failure is injected. -/
def PostEnv.none : PostEnv :=
  ⟨Option.none, "p0", Option.none, fun _ => Option.none, fun _ => Option.none⟩

/-- The loop over `post.Files` (vole.go:195-201): each file is moved from the staging area to
the file directory of the user; a failed move is reported with `Abort` and the loop goes on. -/
def moveFiles (f : PostEnv) (user : User) : List File → HState → HState
  | [], s => s
  | file :: rest, s =>
    let src := pathJoin [s.world.TempDir, file.Hash]
    let dst := pathJoin [user.FilePath, file.Hash]
    let s := s.call (.Move src dst)
    let s :=
      match Move s.world.fs src dst (f.move src) with
      | .error e => s.Abort 500 ("Error opening temp file: " ++ e)
      | .ok fs => { s with world := { s.world with fs := fs } }
    moveFiles f user rest s

/-- The end of the handler (vole.go:195-210): the loop over the files of the post, then the
rendering of its container. -/
def finishPost (cdc : Codec) (f : PostEnv) (user : User) (post : Post) (s : HState) :
    Handled :=
  let s := moveFiles f user post.Files s
  match cdc.postJson post with
  | .error _ => (s.Abort 500 "Could not create container").returns ""
  | .ok postJson => s.returns postJson

/-- The handler of `POST /api/posts`; `body` is what `ioutil.ReadAll` returned.  The post is
saved first, through a pointer, so that the loop and the rendering see the post as saved; no
`Abort` is followed by a `return`, so the loop over the files runs after a failed save too.
A user or post returned alongside an error is nil, and the next method call on it panics. -/
def postPosts (cdc : Codec) (f : PostEnv) (body : Bytes) (s : HState) : Handled :=
  let s := { s with ctx := setJsonHeaders s.ctx }
  let s :=
    match f.readBody with
    | some _ => s.Abort 500 "Error reading request body."
    | Option.none => s
  match GetMyUser s.world with
  | .error _ => (s.Abort 500 "Error reading my user when posting.").panics
  | .ok user =>
    match user.NewPostFromContainerJson cdc body with
    | .error _ => (s.Abort 500 "Invalid JSON").panics
    | .ok post =>
      let s := s.call (.PostSave post)
      match post.Save s.world f.newId f.save f.commit with
      | .error _ => finishPost cdc f user post (s.Abort 500 "Error saving post")
      | .ok (w, saved) => finishPost cdc f user saved { s with world := w }

/-- The loop over `posts.Posts` (vole.go:225-236): a post with the requested id is deleted and
the handler returns; a failed delete is reported with `Abort` and the loop goes on. -/
def deleteLoop (deleteErr : Post → Option Error) (id : String) : List Post → HState → Handled
  | [], s => s.returns "OK"
  | post :: rest, s =>
    if post.Id = id then
      let s := s.call (.PostDelete post)
      match post.Delete s.world (deleteErr post) with
      | .error _ => deleteLoop deleteErr id rest (s.Abort 500 "Error deleting post.")
      | .ok w => ({ s with world := w }).returns "OK"
    else deleteLoop deleteErr id rest s

/-- The handler of `DELETE /api/posts/(.*)`; `id` is the captured path segment.  A user or
collection returned alongside an error is nil, and the next use of it panics. -/
def deletePost (getPostsErr : Option Error) (deleteErr : Post → Option Error) (id : String)
    (s : HState) : Handled :=
  let s := { s with ctx := setJsonHeaders s.ctx }
  match GetMyUser s.world with
  | .error _ => (s.Abort 500 "Error loading user.").panics
  | .ok user =>
    match user.GetPosts s.world getPostsErr with
    | .error _ => (s.Abort 500 "Error loading posts.").panics
    | .ok posts => deleteLoop deleteErr id posts.Posts s

/-! ## Small concrete inputs -/

/-- A post with the given id and no content. -/
def postWithId (id : String) : Post := ⟨id, "", [], "u1", "", "", false⟩

/-- A codec that renders a collection by the ids of its posts.  It rejects the empty
payload, reads a user payload as `bob` when its first byte is 0 and as `carol` otherwise, and
reads a post payload as the post `p1` with the single file reference `h1`. -/
def sampleCodec : Codec :=
  { decodeUser := fun b =>
      match b with
      | [] => .error "unexpected end of JSON input"
      | 0 :: _ => .ok ⟨"bob", "Bob", "/vole/bob"⟩
      | _ :: _ => .ok ⟨"carol", "Carol", "/vole/carol"⟩
    decodePost := fun b =>
      match b with
      | [] => .error "unexpected end of JSON input"
      | _ :: _ => .ok ⟨"p1", "hello", [⟨"h1", "a.png"⟩], "", "", "", false⟩
    userJson := fun u => .ok u.Id
    postJson := fun p => .ok p.Id
    postsJson := fun c => .ok (String.intercalate "," (c.Posts.map Post.Id)) }

/-- A world with the single user `alice`, who is the operator, and nothing else. -/
def aliceWorld : World :=
  ⟨"/tmp", [], [⟨"alice", "Alice", "/vole/alice"⟩], some "alice", []⟩

/-- The world of `aliceWorld` in which alice owns the posts `p2` and `p1`. -/
def aliceWithPosts : World :=
  ⟨"/tmp", [], [⟨"alice", "Alice", "/vole/alice"⟩], some "alice",
    [("alice", [postWithId "p2", postWithId "p1"])]⟩

/-- The world after a request to `POST /api/users` with the given body in which no I/O
fails. -/
def afterPostUsers (cdc : Codec) (body : Bytes) (w : World) : World :=
  (postUsers cdc UserFaults.none body (HState.start w)).st.world

/-- The world of `aliceWorld` in which the blob `h1` is staged. -/
def aliceStaged : World :=
  ⟨"/tmp", [("/tmp/h1", [1, 2, 3])], [⟨"alice", "Alice", "/vole/alice"⟩], some "alice", []⟩

/-! ## Facts about the digest and its rendering -/

set_option maxRecDepth 100000 in
/-- The MD5 test vector `abc` of RFC 1321. -/
theorem Md5_abc : Md5 ⟨[97, 98, 99], none⟩ = "900150983cd24fb0d6963f7d28e17f72" := by
  decide

theorem leBytes_length (n x : Nat) : (leBytes n x).length = n := by
  simp [leBytes]

theorem md5Sum_length (msg : Bytes) : (md5Sum msg).length = 16 := by
  simp [md5Sum, leBytes_length]

theorem hexDigit_mem (n : Nat) (h : n < 16) : hexDigit n ∈ hexChars := by
  interval_cases n <;> decide

theorem hexEncode_length (bs : Bytes) : (hexEncode bs).length = 2 * bs.length := by
  induction bs with
  | nil => rfl
  | cons b bs ih =>
    simp only [hexEncode, List.flatMap_cons, List.length_append, List.length_cons,
      List.length_nil] at ih ⊢
    omega

theorem hexEncode_mem (bs : Bytes) : ∀ c ∈ hexEncode bs, c ∈ hexChars := by
  intro c hc
  simp only [hexEncode, List.mem_flatMap, List.mem_cons, List.mem_singleton,
    List.not_mem_nil, or_false] at hc
  obtain ⟨b, -, hb⟩ := hc
  have h256 : b.val < 256 := b.isLt
  rcases hb with rfl | rfl
  · exact hexDigit_mem _ (by omega)
  · exact hexDigit_mem _ (by omega)

theorem Md5_toList (r : Reader) : (Md5 r).toList = hexEncode (md5Sum r.copyOut.1) := rfl

theorem Md5_length (r : Reader) : (Md5 r).length = 32 := by
  show (hexEncode (md5Sum r.copyOut.1)).length = 32
  rw [hexEncode_length, md5Sum_length]

theorem Md5_mem_hex (r : Reader) : ∀ c ∈ (Md5 r).toList, c ∈ hexChars := by
  intro c hc
  rw [Md5_toList] at hc
  exact hexEncode_mem _ c hc

/-! ## Facts about `path.Clean` and `path.Join` -/

theorem splitSlash_ne_nil (p : List Char) : splitSlash p ≠ [] := by
  cases p with
  | nil => simp [splitSlash]
  | cons c cs =>
    simp only [splitSlash]
    split <;> simp

theorem splitSlash_append_slash (a b : List Char) :
    splitSlash (a ++ '/' :: b) = splitSlash a ++ splitSlash b := by
  induction a with
  | nil => simp [splitSlash]
  | cons c cs ih =>
    have hne := splitSlash_ne_nil cs
    simp only [List.cons_append, splitSlash, List.append_eq]
    rw [ih]
    by_cases hc : c = '/'
    · simp [hc]
    · simp only [hc, if_false]
      cases hs : splitSlash cs with
      | nil => exact absurd hs hne
      | cons x xs => simp

theorem splitSlash_of_not_mem (h : List Char) (hh : '/' ∉ h) : splitSlash h = [h] := by
  induction h with
  | nil => rfl
  | cons c cs ih =>
    simp only [List.mem_cons, not_or] at hh
    have hc : c ≠ '/' := fun e => hh.1 e.symm
    simp [splitSlash, hc, ih hh.2]

theorem splitSlash_no_slash (p : List Char) : ∀ c ∈ splitSlash p, '/' ∉ c := by
  induction p with
  | nil => simp [splitSlash]
  | cons c cs ih =>
    have hne := splitSlash_ne_nil cs
    intro x hx
    simp only [splitSlash] at hx
    cases hs : splitSlash cs with
    | nil => exact absurd hs hne
    | cons y ys =>
      rw [hs] at hx ih
      by_cases hc : c = '/'
      · simp only [hc, if_true, List.mem_cons] at hx
        rcases hx with rfl | rfl | hx
        · simp
        · exact ih _ (by simp)
        · exact ih _ (by simp [hx])
      · simp only [hc, if_false, List.headD_cons, List.tail_cons, List.mem_cons] at hx
        rcases hx with rfl | hx
        · have := ih y (by simp)
          simp only [List.mem_cons, not_or]
          exact ⟨fun e => hc e.symm, this⟩
        · exact ih _ (by simp [hx])

theorem cleanPush_kept (rooted : Bool) (st : List (List Char)) (c : List Char)
    (hst : ∀ x ∈ st, KeptElem x) (hc : '/' ∉ c) : ∀ x ∈ cleanPush rooted st c, KeptElem x := by
  have hdd : KeptElem ['.', '.'] := ⟨by simp, by simp, by decide⟩
  unfold cleanPush
  by_cases h1 : c = [] ∨ c = ['.']
  · rw [if_pos h1]
    exact hst
  · rw [if_neg h1]
    by_cases h2 : c = ['.', '.']
    · rw [if_pos h2]
      subst h2
      cases st with
      | nil =>
        cases rooted <;> simp [hdd]
      | cons t rest =>
        by_cases h3 : t = ['.', '.']
        · simp only [h3, if_true]
          intro x hx
          simp only [List.mem_cons] at hx
          rcases hx with rfl | rfl | hx
          · exact hdd
          · exact hdd
          · exact hst x (by simp [hx])
        · simp only [h3, if_false]
          intro x hx
          exact hst x (by simp [hx])
    · rw [if_neg h2]
      intro x hx
      simp only [List.mem_cons] at hx
      rcases hx with rfl | hx
      · push_neg at h1
        exact ⟨h1.1, h1.2, hc⟩
      · exact hst x hx

theorem foldl_cleanPush_kept (rooted : Bool) (cs st : List (List Char))
    (hst : ∀ x ∈ st, KeptElem x) (hcs : ∀ c ∈ cs, '/' ∉ c) :
    ∀ x ∈ cs.foldl (cleanPush rooted) st, KeptElem x := by
  induction cs generalizing st with
  | nil => simpa using hst
  | cons c cs ih =>
    simp only [List.foldl_cons]
    exact ih _ (cleanPush_kept rooted st c hst (hcs c (by simp)))
      (fun c hc => hcs c (by simp [hc]))

theorem joinSlash_append_singleton (xs : List (List Char)) (h : List Char) :
    joinSlash (xs ++ [h]) = if xs = [] then h else joinSlash xs ++ '/' :: h := by
  induction xs with
  | nil => simp [joinSlash]
  | cons x xs ih =>
    cases xs with
    | nil => simp [joinSlash]
    | cons y ys =>
      simp only [List.cons_append, joinSlash] at ih ⊢
      simp [ih]

theorem joinSlash_kept (xs : List (List Char)) (hne : xs ≠ []) (hx : ∀ x ∈ xs, KeptElem x) :
    joinSlash xs ≠ [] ∧ joinSlash xs ≠ ['.'] ∧ (joinSlash xs).head? ≠ some '/' := by
  cases xs with
  | nil => exact absurd rfl hne
  | cons x xs =>
    obtain ⟨h1, h2, h3⟩ := hx x (by simp)
    cases x with
    | nil => exact absurd rfl h1
    | cons a as =>
      have ha : a ≠ '/' := fun e => h3 (by simp [e])
      cases xs with
      | nil => simp [joinSlash, h2, ha]
      | cons y ys =>
        simp only [joinSlash, List.cons_append]
        refine ⟨by simp, ?_, by simp [ha]⟩
        intro e
        simp only [List.cons.injEq, List.append_eq_nil, and_false, reduceCtorEq] at e

theorem cleanChars_child (d h : List Char) (hd : d ≠ []) (h1 : h ≠ []) (h2 : h ≠ ['.'])
    (h3 : h ≠ ['.', '.']) (h4 : '/' ∉ h) :
    cleanChars (d ++ '/' :: h) =
      if cleanChars d = ['/'] then '/' :: h
      else if cleanChars d = ['.'] then h else cleanChars d ++ '/' :: h := by
  have hhead : (d ++ '/' :: h).head? = d.head? := by
    cases d with
    | nil => exact absurd rfl hd
    | cons _ _ => rfl
  have hkept := foldl_cleanPush_kept (d.head? = some '/') (splitSlash d) [] (by simp)
    (splitSlash_no_slash d)
  have hpush : ∀ st, cleanPush (d.head? = some '/') st h = h :: st := by
    intro st
    simp [cleanPush, h1, h2, h3]
  unfold cleanChars
  simp only [hhead, splitSlash_append_slash, splitSlash_of_not_mem h h4, List.foldl_append,
    List.foldl_cons, List.foldl_nil, hpush, List.reverse_cons, joinSlash_append_singleton]
  generalize hst : (List.foldl (cleanPush (decide (d.head? = some '/'))) [] (splitSlash d)) = st
    at hkept
  by_cases hnil : st = []
  · subst hnil
    by_cases hr : d.head? = some '/'
    · simp [hr, joinSlash]
    · simp [hr, joinSlash, h1]
  · have hrev : st.reverse ≠ [] := by simpa using hnil
    have hk := joinSlash_kept st.reverse hrev (fun x hx => hkept x (by simpa using hx))
    obtain ⟨k1, k2, k3⟩ := hk
    by_cases hr : d.head? = some '/'
    · simp [hr, hrev, k1]
    · simp only [hr, hrev, if_false, decide_False, Bool.false_eq_true]
      have k4 : joinSlash st.reverse ≠ ['/'] := by
        intro e
        rw [e] at k3
        exact k3 rfl
      simp [k1, k2, k4]

theorem cleanChars_single (h : List Char) (h1 : h ≠ []) (h2 : h ≠ ['.'])
    (h3 : h ≠ ['.', '.']) (h4 : '/' ∉ h) : cleanChars h = h := by
  have hhead : h.head? ≠ some '/' := by
    cases h with
    | nil => simp
    | cons a as =>
      simp only [List.head?_cons, ne_eq, Option.some.injEq]
      intro e
      exact h4 (by simp [e])
  simp [cleanChars, hhead, splitSlash_of_not_mem h h4, cleanPush, h1, h2, h3, joinSlash]

theorem pathJoin_child (dir name : String) (h1 : name.toList ≠ []) (h2 : name.toList ≠ ['.'])
    (h3 : name.toList ≠ ['.', '.']) (h4 : '/' ∉ name.toList) :
    pathJoin [dir, name] = childPath (pathClean dir) name := by
  have hname : name ≠ "" := by
    intro e
    rw [e] at h1
    exact h1 rfl
  by_cases hd : dir = ""
  · subst hd
    have hc : pathClean "" = "." := by decide
    simp only [pathJoin, if_true, hname, if_false, List.map_cons, List.map_nil, joinSlash,
      childPath, hc]
    show String.mk (cleanChars name.toList) = name
    rw [cleanChars_single _ h1 h2 h3 h4]
    rfl
  · have hdl : dir.toList ≠ [] := by
      intro e
      apply hd
      cases dir
      simp_all [String.toList]
    simp only [pathJoin, hd, if_false, List.map_cons, List.map_nil, joinSlash, childPath]
    show String.mk (cleanChars (dir.toList ++ '/' :: name.toList)) = _
    rw [cleanChars_child _ _ hdl h1 h2 h3 h4]
    have e1 : (pathClean dir = "/") ↔ cleanChars dir.toList = ['/'] := by
      simp [pathClean, String.ext_iff]
    have e2 : (pathClean dir = ".") ↔ cleanChars dir.toList = ['.'] := by
      simp [pathClean, String.ext_iff]
    by_cases c1 : cleanChars dir.toList = ['/']
    · rw [if_pos c1, if_pos (e1.2 c1)]
      rfl
    · rw [if_neg c1, if_neg (fun e => c1 (e1.1 e))]
      by_cases c2 : cleanChars dir.toList = ['.']
      · rw [if_pos c2, if_pos (e2.2 c2)]
        rfl
      · rw [if_neg c2, if_neg (fun e => c2 (e2.1 e))]
        apply String.ext
        simp [pathClean]

/-! ## Facts about the file system -/

theorem readFile_writeFile_same (fs : FileSystem) (p : String) (b : Bytes) :
    readFile (writeFile fs p b) p = some b := by
  induction fs with
  | nil => simp [writeFile, readFile]
  | cons e rest ih =>
    obtain ⟨q, c⟩ := e
    by_cases h : q = p
    · simp [writeFile, readFile, h]
    · simp [writeFile, readFile, h, ih]

theorem readFile_writeFile_other (fs : FileSystem) (p q : String) (b : Bytes) (h : q ≠ p) :
    readFile (writeFile fs p b) q = readFile fs q := by
  induction fs with
  | nil => simp [writeFile, readFile, h.symm]
  | cons e rest ih =>
    obtain ⟨k, c⟩ := e
    by_cases hk : k = p
    · subst hk
      simp [writeFile, readFile, h.symm]
    · by_cases hq : k = q
      · subst hq
        simp [writeFile, readFile, hk]
      · simp [writeFile, readFile, hk, hq, ih]

theorem writeFile_writeFile (fs : FileSystem) (p : String) (a b : Bytes) :
    writeFile (writeFile fs p a) p b = writeFile fs p b := by
  induction fs with
  | nil => simp [writeFile]
  | cons e rest ih =>
    obtain ⟨q, c⟩ := e
    by_cases h : q = p
    · simp [writeFile, h]
    · simp [writeFile, h, ih]

theorem writeFile_length_le (fs : FileSystem) (p : String) (b : Bytes) :
    (writeFile fs p b).length ≤ fs.length + 1 := by
  induction fs with
  | nil => simp [writeFile]
  | cons e rest ih =>
    obtain ⟨q, c⟩ := e
    by_cases h : q = p
    · simp [writeFile, h]
    · simp [writeFile, h]
      omega

/-- An upload without I/O failure: the world afterwards and the returned body. -/
theorem fileUpload_none (b : Bytes) (rest : List Bytes) (s : HState) :
    fileUpload UploadFaults.none (b :: rest) s =
      ⟨{ world := { s.world with
                    fs := writeFile s.world.fs (stagingPath s.world (Md5 ⟨b, none⟩)) b }
         ctx := setJsonHeaders s.ctx
         calls := s.calls ++ [.Create s.world.TempDir (Md5 ⟨b, none⟩)] },
       some (hashJson (Md5 ⟨b, none⟩))⟩ := by
  simp [fileUpload, UploadFaults.none, Create, ioCopy, HState.call, HState.returns,
    Reader.copyOut, writeFile_writeFile, stagingPath]

/-! ## Claims about `POST /file/upload` -/

/-- C4: when an upload succeeds (no read, create or copy failure), the handler returns the
body `{ "hash": "h" }` with `h = Md5(b)` under status 200, the staging area holds under the
name `h` a blob whose content is exactly `b`, and that content hashes to its own name. -/
theorem fileUpload_content_addressed (w : World) (b : Bytes) (rest : List Bytes)
    (f : UploadFaults) (h1 : f.openErr = none) (h2 : f.hashRead = none)
    (h3 : f.createErr = none) (h4 : f.copyRead = none) (h5 : f.copyWrite = none) :
    (fileUpload f (b :: rest) (HState.start w)).ret = some (hashJson (Md5 ⟨b, none⟩)) ∧
    (fileUpload f (b :: rest) (HState.start w)).response.status = some 200 ∧
    (fileUpload f (b :: rest) (HState.start w)).response.body = hashJson (Md5 ⟨b, none⟩) ∧
    readFile (fileUpload f (b :: rest) (HState.start w)).st.world.fs
      (pathJoin [w.TempDir, Md5 ⟨b, none⟩]) = some b ∧
    (∀ c, readFile (fileUpload f (b :: rest) (HState.start w)).st.world.fs
      (pathJoin [w.TempDir, Md5 ⟨b, none⟩]) = some c → Md5 ⟨c, none⟩ = Md5 ⟨b, none⟩) := by
  have hf : f = UploadFaults.none := by
    cases f
    simp_all [UploadFaults.none]
  subst hf
  rw [fileUpload_none]
  refine ⟨rfl, rfl, ?_, ?_, ?_⟩
  · simp [Handled.response, Context.Write, setJsonHeaders, Context.SetHeader, Context.empty,
      HState.start]
  · simp only [HState.start, stagingPath, readFile_writeFile_same]
  · intro c hc
    simp only [HState.start, stagingPath, readFile_writeFile_same, Option.some.injEq] at hc
    rw [hc]

/-- The upload of the bytes `1 2 3` into an empty staging area `/tmp`. -/
theorem fileUpload_content_addressed_witness :
    (fileUpload UploadFaults.none [[1, 2, 3]] (HState.start ⟨"/tmp", [], [], none, []⟩)).ret
      = some (hashJson (Md5 ⟨[1, 2, 3], none⟩)) ∧
    (fileUpload UploadFaults.none [[1, 2, 3]]
      (HState.start ⟨"/tmp", [], [], none, []⟩)).response.status = some 200 ∧
    (fileUpload UploadFaults.none [[1, 2, 3]]
      (HState.start ⟨"/tmp", [], [], none, []⟩)).response.body
      = hashJson (Md5 ⟨[1, 2, 3], none⟩) ∧
    readFile (fileUpload UploadFaults.none [[1, 2, 3]]
      (HState.start ⟨"/tmp", [], [], none, []⟩)).st.world.fs
      (pathJoin ["/tmp", Md5 ⟨[1, 2, 3], none⟩]) = some [1, 2, 3] ∧
    (∀ c, readFile (fileUpload UploadFaults.none [[1, 2, 3]]
      (HState.start ⟨"/tmp", [], [], none, []⟩)).st.world.fs
      (pathJoin ["/tmp", Md5 ⟨[1, 2, 3], none⟩]) = some c
        → Md5 ⟨c, none⟩ = Md5 ⟨[1, 2, 3], none⟩) :=
  fileUpload_content_addressed ⟨"/tmp", [], [], none, []⟩ [1, 2, 3] [] UploadFaults.none
    rfl rfl rfl rfl rfl

/-- C3: uploading the same bytes twice without I/O failure returns the same hash both times,
and the second upload leaves the world exactly as the first left it: one blob, stored under the
staging path of that hash, with content `b`; the first upload adds at most one file. -/
theorem fileUpload_twice (w : World) (b : Bytes) :
    (fileUpload UploadFaults.none [b] (HState.start w)).ret
      = some (hashJson (Md5 ⟨b, none⟩)) ∧
    (fileUpload UploadFaults.none [b]
      (HState.start (fileUpload UploadFaults.none [b] (HState.start w)).st.world)).ret
      = some (hashJson (Md5 ⟨b, none⟩)) ∧
    (fileUpload UploadFaults.none [b]
      (HState.start (fileUpload UploadFaults.none [b] (HState.start w)).st.world)).st.world
      = (fileUpload UploadFaults.none [b] (HState.start w)).st.world ∧
    readFile (fileUpload UploadFaults.none [b] (HState.start w)).st.world.fs
      (pathJoin [w.TempDir, Md5 ⟨b, none⟩]) = some b ∧
    (fileUpload UploadFaults.none [b] (HState.start w)).st.world.fs.length
      ≤ w.fs.length + 1 := by
  refine ⟨?_, ?_, ?_, ?_, ?_⟩
  · rw [fileUpload_none]
  · rw [fileUpload_none, fileUpload_none]
  · simp only [fileUpload_none, HState.start, stagingPath, writeFile_writeFile]
  · simp only [fileUpload_none, HState.start, stagingPath, readFile_writeFile_same]
  · simp only [fileUpload_none, HState.start, stagingPath]
    exact writeFile_length_le _ _ _

set_option maxRecDepth 100000 in
/-- C5 (as stated, refuted): the copy into the staging file fails after one byte was written;
the handler answers 500, and the staging area, empty before the call, is left holding a
one-byte blob under the name of the hash. -/
theorem fileUpload_leaves_truncated_blob :
    (fileUpload ⟨none, none, none, none, some 1⟩ [[1, 2, 3]]
      (HState.start ⟨"/tmp", [], [], none, []⟩)).response.status = some 500 ∧
    readFile (World.fs ⟨"/tmp", [], [], none, []⟩) "/tmp/5289df737df57326fcdd22597afb1fac"
      = none ∧
    (fileUpload ⟨none, none, none, none, some 1⟩ [[1, 2, 3]]
      (HState.start ⟨"/tmp", [], [], none, []⟩)).st.world.fs
      = [("/tmp/5289df737df57326fcdd22597afb1fac", [1])] := by
  decide

/-- C5 (amended): when staging fails (the staging file cannot be created, or the copy into it
fails or is cut short), the response has status 500; a failed creation leaves the world
unchanged; otherwise no file other than the staging file named by the computed hash is
changed, and that file holds the first `k` uploaded bytes for some `k` (the partial blob is
not removed). -/
theorem fileUpload_failure_effects (w : World) (b : Bytes) (rest : List Bytes)
    (f : UploadFaults) (ho : f.openErr = none)
    (hfail : f.createErr ≠ none ∨ f.copyRead ≠ none ∨ f.copyWrite ≠ none) :
    (fileUpload f (b :: rest) (HState.start w)).response.status = some 500 ∧
    (f.createErr ≠ none → (fileUpload f (b :: rest) (HState.start w)).st.world = w) ∧
    (∀ p, p ≠ pathJoin [w.TempDir, Md5 ⟨b, f.hashRead⟩] →
      readFile (fileUpload f (b :: rest) (HState.start w)).st.world.fs p = readFile w.fs p) ∧
    (f.createErr = none → ∃ k,
      readFile (fileUpload f (b :: rest) (HState.start w)).st.world.fs
        (pathJoin [w.TempDir, Md5 ⟨b, f.hashRead⟩]) = some (b.take k)) := by
  obtain ⟨fo, fh, fc, fr, fw⟩ := f
  simp only at ho hfail
  subst ho
  cases fc with
  | some e =>
    simp [fileUpload, Create, ioCopy, HState.call, HState.returns, HState.Abort, HState.start,
      Handled.response, Context.Write, Context.Abort, setJsonHeaders, Context.SetHeader,
      Context.empty]
  | none =>
    simp only [ne_eq, not_true_eq_false, false_or] at hfail
    cases fw with
    | some k =>
      refine ⟨?_, ?_, ?_, ?_⟩
      · simp [fileUpload, Create, ioCopy, HState.call, HState.returns, HState.Abort,
          HState.start, Handled.response, Context.Write, Context.Abort, setJsonHeaders,
          Context.SetHeader, Context.empty]
      · simp
      · intro p hp
        simp [fileUpload, Create, ioCopy, HState.call, HState.returns, HState.Abort,
          HState.start, writeFile_writeFile, readFile_writeFile_other _ _ _ _ hp]
      · intro _
        cases fr with
        | none =>
          exact ⟨k, by simp [fileUpload, Create, ioCopy, HState.call, HState.returns,
            HState.Abort, HState.start, writeFile_writeFile, readFile_writeFile_same,
            Reader.copyOut]⟩
        | some j =>
          exact ⟨min k j, by simp [fileUpload, Create, ioCopy, HState.call, HState.returns,
            HState.Abort, HState.start, writeFile_writeFile, readFile_writeFile_same,
            Reader.copyOut, List.take_take]⟩
    | none =>
      cases fr with
      | none => simp at hfail
      | some j =>
        refine ⟨?_, ?_, ?_, ?_⟩
        · simp [fileUpload, Create, ioCopy, HState.call, HState.returns, HState.Abort,
            HState.start, Handled.response, Context.Write, Context.Abort, setJsonHeaders,
            Context.SetHeader, Context.empty, Reader.copyOut]
        · simp
        · intro p hp
          simp [fileUpload, Create, ioCopy, HState.call, HState.returns, HState.Abort,
            HState.start, writeFile_writeFile, readFile_writeFile_other _ _ _ _ hp,
            Reader.copyOut]
        · intro _
          exact ⟨j, by simp [fileUpload, Create, ioCopy, HState.call, HState.returns,
            HState.Abort, HState.start, writeFile_writeFile, readFile_writeFile_same,
            Reader.copyOut]⟩

/-- The upload of the bytes `7 8 9` whose copy stops on a read error after two bytes. -/
theorem fileUpload_failure_effects_witness :
    (fileUpload ⟨none, none, none, some 2, none⟩ [[7, 8, 9]]
      (HState.start ⟨"/tmp", [], [], none, []⟩)).response.status = some 500 ∧
    ((UploadFaults.createErr ⟨none, none, none, some 2, none⟩) ≠ none →
      (fileUpload ⟨none, none, none, some 2, none⟩ [[7, 8, 9]]
        (HState.start ⟨"/tmp", [], [], none, []⟩)).st.world = ⟨"/tmp", [], [], none, []⟩) ∧
    (∀ p, p ≠ pathJoin ["/tmp", Md5 ⟨[7, 8, 9], none⟩] →
      readFile (fileUpload ⟨none, none, none, some 2, none⟩ [[7, 8, 9]]
        (HState.start ⟨"/tmp", [], [], none, []⟩)).st.world.fs p = readFile [] p) ∧
    ((UploadFaults.createErr ⟨none, none, none, some 2, none⟩) = none → ∃ k,
      readFile (fileUpload ⟨none, none, none, some 2, none⟩ [[7, 8, 9]]
        (HState.start ⟨"/tmp", [], [], none, []⟩)).st.world.fs
        (pathJoin ["/tmp", Md5 ⟨[7, 8, 9], none⟩]) = some (List.take k [7, 8, 9])) :=
  fileUpload_failure_effects ⟨"/tmp", [], [], none, []⟩ [7, 8, 9] []
    ⟨none, none, none, some 2, none⟩ rfl (Or.inr (Or.inl (by decide)))

/-! ## Claim about `Md5` -/

/-- C10: for every reader, also one whose read fails part-way, `Md5` returns a string of
exactly 32 characters, each one of `0-9a-f`: the lowercase hex rendering of the 16-byte MD5
digest of the bytes read.  It holds no `/` and no `.`, so joining a staging directory with it
gives the direct child of that name, and it depends only on the bytes read. -/
theorem Md5_total_safe_name (r : Reader) (dir : String) :
    (Md5 r).length = 32 ∧
    (∀ c ∈ (Md5 r).toList, c ∈ "0123456789abcdef".toList) ∧
    '/' ∉ (Md5 r).toList ∧ '.' ∉ (Md5 r).toList ∧
    (Md5 r).toList = hexEncode (md5Sum (r.data.take ((r.failAt.getD r.data.length)))) ∧
    (md5Sum (r.data.take ((r.failAt.getD r.data.length)))).length = 16 ∧
    pathJoin [dir, Md5 r] = childPath (pathClean dir) (Md5 r) ∧
    (∀ r' : Reader, r'.copyOut.1 = r.copyOut.1 → Md5 r' = Md5 r) := by
  have hmem := Md5_mem_hex r
  have hlen := Md5_length r
  have hslash : '/' ∉ (Md5 r).toList := fun h => absurd (hmem _ h) (by decide)
  have hdot : '.' ∉ (Md5 r).toList := fun h => absurd (hmem _ h) (by decide)
  have hll : (Md5 r).toList.length = 32 := hlen
  refine ⟨hlen, hmem, hslash, hdot, ?_, md5Sum_length _, ?_, ?_⟩
  · rw [Md5_toList]
    cases r with
    | mk d fa =>
      cases fa with
      | none => simp [Reader.copyOut]
      | some k => simp [Reader.copyOut]
  · apply pathJoin_child
    · intro e
      rw [e] at hll
      simp at hll
    · intro e
      rw [e] at hll
      simp at hll
    · intro e
      rw [e] at hll
      simp at hll
    · exact hslash
  · intro r' hr
    simp only [Md5, hr]

/-! ## Claims about `GET /api/posts` -/

theorem olderThan_append (pre rest : List Post) (p : Post)
    (h : ∀ q ∈ pre, q.Id ≠ p.Id) : olderThan p.Id (pre ++ p :: rest) = rest := by
  induction pre with
  | nil => simp [olderThan]
  | cons q qs ih =>
    have hq : q.Id ≠ p.Id := h q (by simp)
    simp only [List.cons_append, olderThan, hq, if_false]
    exact ih (fun x hx => h x (by simp [hx]))

/-- C2: in a newest-first collection with distinct ids, `BeforeId(id)` followed by `Limit(n)`
with `n ≥ 0` yields exactly the first `n` posts that come after the post with that id, in
the original order; an empty `before` applies no filtering. -/
theorem page_cursor (pre rest : List Post) (p : Post) (n : Int) (hid : p.Id ≠ "")
    (hdistinct : ((pre ++ p :: rest).map Post.Id).Nodup) (hn : 0 ≤ n) :
    page ⟨pre ++ p :: rest⟩ p.Id n = ⟨rest.take n.toNat⟩ ∧
    (∀ c : PostCollection, c.BeforeId "" = c) ∧
    (∀ (c : PostCollection) (m : Int), 0 ≤ m → page c "" m = ⟨c.Posts.take m.toNat⟩) := by
  have hpre : ∀ q ∈ pre, q.Id ≠ p.Id := by
    intro q hq e
    rw [List.map_append, List.map_cons, List.nodup_append] at hdistinct
    exact hdistinct.2.2 (List.mem_map_of_mem Post.Id hq) (by simp [e])
  refine ⟨?_, ?_, ?_⟩
  · simp only [page, PostCollection.BeforeId, hid, if_false, olderThan_append pre rest p hpre,
      PostCollection.Limit]
    by_cases h0 : n ≤ 0
    · have : n = 0 := le_antisymm h0 hn
      subst this
      simp
    · simp [h0]
  · intro c
    simp [PostCollection.BeforeId]
  · intro c m hm
    simp only [page, PostCollection.BeforeId, if_true, PostCollection.Limit]
    by_cases h0 : m ≤ 0
    · have : m = 0 := le_antisymm h0 hm
      subst this
      simp
    · simp [h0]

/-- The posts `p5 … p1`: `BeforeId(p3)` then `Limit(2)` gives `p2, p1`. -/
theorem page_cursor_witness :
    page ⟨[postWithId "p5", postWithId "p4"] ++ postWithId "p3" ::
        [postWithId "p2", postWithId "p1"]⟩ (postWithId "p3").Id 2
      = ⟨List.take (2 : Int).toNat [postWithId "p2", postWithId "p1"]⟩ ∧
    (∀ c : PostCollection, c.BeforeId "" = c) ∧
    (∀ (c : PostCollection) (m : Int), 0 ≤ m → page c "" m = ⟨c.Posts.take m.toNat⟩) :=
  page_cursor [postWithId "p5", postWithId "p4"] [postWithId "p2", postWithId "p1"]
    (postWithId "p3") 2 (by decide) (by decide) (by decide)

/-- C9 (as stated, refuted): without a `user` parameter, a failure of the store's `GetPosts` is
turned into the welcome placeholder and answered with status 200. -/
theorem getPosts_error_gives_welcome :
    timelineOrWelcome (.error "read error") = welcomePost.Collection ∧
    (getPosts sampleCodec 10 [] none (.error "read error") (HState.start aliceWorld)).ret
      = some "none" ∧
    (getPosts sampleCodec 10 [] none (.error "read error")
      (HState.start aliceWorld)).response.status = some 200 := by
  decide

/-- C9 (amended): without a `user` parameter the collection is replaced by the single welcome
post (id `none`) exactly when the store's `GetPosts` fails or reports zero posts; a non-empty
collection is kept, and when the `before` filter removes all of its posts the result is
empty rather than the placeholder. -/
theorem timelineOrWelcome_cases (timeline : Except Error PostCollection) :
    ((timelineOrWelcome timeline = welcomePost.Collection ∧ welcomePost.Id = "none" ∧
        ((∃ e, timeline = .error e) ∨ ∃ c, timeline = .ok c ∧ c.Posts = [])) ∨
      (∃ c, timeline = .ok c ∧ c.Posts ≠ [] ∧ timelineOrWelcome timeline = c)) ∧
    (∀ (c : PostCollection) (before : String) (limit : Int), timeline = .ok c → c.Posts ≠ [] →
      (c.BeforeId before).Posts = [] →
      page (timelineOrWelcome timeline) before limit = ⟨[]⟩) := by
  have hkeep : ∀ c : PostCollection, c.Posts ≠ [] → timelineOrWelcome (.ok c) = c := by
    intro c hc
    have : ¬ c.Posts.length < 1 := by
      have := List.length_pos.mpr hc
      omega
    simp [timelineOrWelcome, this]
  constructor
  · cases timeline with
    | error e => exact Or.inl ⟨rfl, rfl, Or.inl ⟨e, rfl⟩⟩
    | ok c =>
      by_cases hc : c.Posts = []
      · left
        refine ⟨?_, rfl, Or.inr ⟨c, rfl, hc⟩⟩
        simp [timelineOrWelcome, hc]
      · exact Or.inr ⟨c, rfl, hc, hkeep c hc⟩
  · intro c before limit ht hc hb
    subst ht
    rw [hkeep c hc]
    simp only [page, PostCollection.Limit, hb]
    split <;> simp

/-! ## Claim about `DELETE /api/posts/(.*)` -/

theorem deleteLoop_no_match (deleteErr : Post → Option Error) (id : String) (ps : List Post)
    (s : HState) (h : ∀ p ∈ ps, p.Id ≠ id) : deleteLoop deleteErr id ps s = s.returns "OK" := by
  induction ps with
  | nil => rfl
  | cons p rest ih =>
    have hp : p.Id ≠ id := h p (by simp)
    simp only [deleteLoop, hp, if_false]
    exact ih (fun q hq => h q (by simp [hq]))

/-- C6: when the operator's posts load and none of them has the requested id, the handler of
`DELETE /api/posts/<id>` returns `OK` under status 200, calls `Delete` on no post (it makes no
store call at all) and leaves the world, and so the collection, unchanged. -/
theorem deletePost_unknown_id (w : World) (u : User) (id : String)
    (deleteErr : Post → Option Error) (hu : GetMyUser w = .ok u)
    (hid : ∀ p ∈ postsOf w.posts u.Id, p.Id ≠ id) :
    (deletePost none deleteErr id (HState.start w)).ret = some "OK" ∧
    (deletePost none deleteErr id (HState.start w)).response.status = some 200 ∧
    (deletePost none deleteErr id (HState.start w)).response.body = "OK" ∧
    (deletePost none deleteErr id (HState.start w)).st.calls = [] ∧
    (deletePost none deleteErr id (HState.start w)).st.world = w ∧
    User.GetPosts (deletePost none deleteErr id (HState.start w)).st.world u none
      = User.GetPosts w u none := by
  have h : deletePost none deleteErr id (HState.start w)
      = (HState.mk w (setJsonHeaders Context.empty) []).returns "OK" := by
    simp only [deletePost, HState.start, hu, User.GetPosts]
    exact deleteLoop_no_match deleteErr id _ _ hid
  rw [h]
  refine ⟨rfl, rfl, ?_, rfl, rfl, rfl⟩
  simp [Handled.response, HState.returns, Context.Write, setJsonHeaders, Context.SetHeader,
    Context.empty]

/-- Deleting the id `p9` when alice owns `p2` and `p1`. -/
theorem deletePost_unknown_id_witness :
    (deletePost none (fun _ => none) "p9" (HState.start aliceWithPosts)).ret = some "OK" ∧
    (deletePost none (fun _ => none) "p9" (HState.start aliceWithPosts)).response.status
      = some 200 ∧
    (deletePost none (fun _ => none) "p9" (HState.start aliceWithPosts)).response.body
      = "OK" ∧
    (deletePost none (fun _ => none) "p9" (HState.start aliceWithPosts)).st.calls = [] ∧
    (deletePost none (fun _ => none) "p9" (HState.start aliceWithPosts)).st.world
      = aliceWithPosts ∧
    User.GetPosts (deletePost none (fun _ => none) "p9" (HState.start aliceWithPosts)).st.world
        ⟨"alice", "Alice", "/vole/alice"⟩ none
      = User.GetPosts aliceWithPosts ⟨"alice", "Alice", "/vole/alice"⟩ none :=
  deletePost_unknown_id aliceWithPosts ⟨"alice", "Alice", "/vole/alice"⟩ "p9" (fun _ => none)
    rfl (by decide)

/-! ## Claims about `POST /api/users` -/

theorem find_upsertUser_same (us : List User) (u : User) :
    (upsertUser us u).find? (fun v => v.Id = u.Id) = some u := by
  induction us with
  | nil => simp [upsertUser]
  | cons v rest ih =>
    by_cases h : v.Id = u.Id
    · simp [upsertUser, h]
    · simp [upsertUser, h, ih]

theorem find_upsertUser_other (us : List User) (u : User) (id : String) (h : u.Id ≠ id) :
    (upsertUser us u).find? (fun v => v.Id = id) = us.find? (fun v => v.Id = id) := by
  induction us with
  | nil => simp [upsertUser, h]
  | cons v rest ih =>
    by_cases hv : v.Id = u.Id
    · have hvi : v.Id ≠ id := by
        rw [hv]
        exact h
      simp [upsertUser, hv, h, List.find?_cons]
    · by_cases hvi : v.Id = id
      · subst hvi
        simp [upsertUser, hv]
      · simp [upsertUser, hv, hvi, ih]

theorem afterPostUsers_eq (cdc : Codec) (body : Bytes) (w : World) (u : User)
    (h : NewUserFromContainerJson cdc body = .ok u) :
    afterPostUsers cdc body w
      = ⟨w.TempDir, w.fs, upsertUser w.users u, some u.Id, w.posts⟩ := by
  simp only [afterPostUsers, postUsers, UserFaults.none, h, User.Save, SetMyUser, HState.call,
    HState.start]
  cases cdc.userJson u <;> rfl

/-- C7: after two requests to `POST /api/users` without I/O failure, first with a payload
that validates to user `A`, then with one that validates to user `B` (two identities: equal
ids mean the same user), `GetMyUser` returns `B`, a user is the operator exactly when it has
the id of `B`, and the record of `A` is retrievable through `GetUserById`, unchanged by the
second request. -/
theorem myUser_exclusive (cdc : Codec) (w : World) (bodyA bodyB : Bytes) (A B : User)
    (hA : NewUserFromContainerJson cdc bodyA = .ok A)
    (hB : NewUserFromContainerJson cdc bodyB = .ok B) (hAB : A.Id = B.Id → A = B) :
    GetMyUser (afterPostUsers cdc bodyA w) = .ok A ∧
    GetMyUser (afterPostUsers cdc bodyB (afterPostUsers cdc bodyA w)) = .ok B ∧
    (∀ u : User, isMyUser (afterPostUsers cdc bodyB (afterPostUsers cdc bodyA w)) u = true
      ↔ u.Id = B.Id) ∧
    GetUserById (afterPostUsers cdc bodyB (afterPostUsers cdc bodyA w)) A.Id = .ok A ∧
    GetUserById (afterPostUsers cdc bodyB (afterPostUsers cdc bodyA w)) A.Id
      = GetUserById (afterPostUsers cdc bodyA w) A.Id := by
  rw [afterPostUsers_eq cdc bodyB _ B hB, afterPostUsers_eq cdc bodyA w A hA]
  have h1 : GetUserById ⟨w.TempDir, w.fs, upsertUser w.users A, some A.Id, w.posts⟩ A.Id
      = .ok A := by
    simp [GetUserById, find_upsertUser_same]
  have h2 : GetUserById
      ⟨w.TempDir, w.fs, upsertUser (upsertUser w.users A) B, some B.Id, w.posts⟩ A.Id
      = .ok A := by
    by_cases e : A.Id = B.Id
    · have := hAB e
      subst this
      simp [GetUserById, find_upsertUser_same]
    · have e' : B.Id ≠ A.Id := fun x => e x.symm
      simp [GetUserById, find_upsertUser_other _ B A.Id e', find_upsertUser_same]
  refine ⟨?_, ?_, ?_, h2, ?_⟩
  · simp [GetMyUser, h1]
  · simp [GetMyUser, GetUserById, find_upsertUser_same]
  · intro u
    simp [isMyUser, eq_comm]
  · simp only at h1 h2 ⊢
    rw [h2, h1]

/-- The user `bob` is posted, then the user `carol`. -/
theorem myUser_exclusive_witness :
    GetMyUser (afterPostUsers sampleCodec [0] aliceWorld) = .ok ⟨"bob", "Bob", "/vole/bob"⟩ ∧
    GetMyUser (afterPostUsers sampleCodec [1] (afterPostUsers sampleCodec [0] aliceWorld))
      = .ok ⟨"carol", "Carol", "/vole/carol"⟩ ∧
    (∀ u : User,
      isMyUser (afterPostUsers sampleCodec [1] (afterPostUsers sampleCodec [0] aliceWorld)) u
        = true ↔ u.Id = (User.mk "carol" "Carol" "/vole/carol").Id) ∧
    GetUserById (afterPostUsers sampleCodec [1] (afterPostUsers sampleCodec [0] aliceWorld))
      (User.mk "bob" "Bob" "/vole/bob").Id = .ok ⟨"bob", "Bob", "/vole/bob"⟩ ∧
    GetUserById (afterPostUsers sampleCodec [1] (afterPostUsers sampleCodec [0] aliceWorld))
        (User.mk "bob" "Bob" "/vole/bob").Id
      = GetUserById (afterPostUsers sampleCodec [0] aliceWorld)
        (User.mk "bob" "Bob" "/vole/bob").Id :=
  myUser_exclusive sampleCodec aliceWorld [0] [1] ⟨"bob", "Bob", "/vole/bob"⟩
    ⟨"carol", "Carol", "/vole/carol"⟩ rfl rfl (fun h => absurd h (by decide))

/-- C8 (the code at the failing input): alice is the operator, the payload validates to the
user `bob` and `User.Save` fails.  The handler reports the failure with `Abort` and goes on:
`SetMyUser` is called and the marker moves to `bob`, whose record was not persisted. -/
theorem postUsers_promotes_unsaved_user :
    (postUsers sampleCodec ⟨none, some "disk full", none⟩ [0] (HState.start aliceWorld)).st.calls
      = [Call.UserSave ⟨"bob", "Bob", "/vole/bob"⟩, Call.SetMyUser ⟨"bob", "Bob", "/vole/bob"⟩] ∧
    aliceWorld.myUser = some "alice" ∧
    (postUsers sampleCodec ⟨none, some "disk full", none⟩ [0] (HState.start aliceWorld)).st.world.myUser
      = some "bob" ∧
    (postUsers sampleCodec ⟨none, some "disk full", none⟩ [0] (HState.start aliceWorld)).st.world.users
      = [⟨"alice", "Alice", "/vole/alice"⟩] ∧
    (postUsers sampleCodec ⟨none, some "disk full", none⟩ [0]
      (HState.start aliceWorld)).response.status = some 500 := by
  decide

/-! ## Claim about `POST /api/posts` -/

theorem mem_upsertPost (ps : List Post) (p : Post) : p ∈ upsertPost ps p := by
  unfold upsertPost
  split_ifs with h
  · simp only [List.any_eq_true, decide_eq_true_eq] at h
    obtain ⟨q, hq, hid⟩ := h
    exact List.mem_map.mpr ⟨q, hq, by simp [hid]⟩
  · simp

/-- The run of the witness, evaluated: the commit of the unstaged `h1` fails inside
`Post.Save`, nothing is persisted, the move of the handler fails too, and the response has
status 500. -/
theorem postPosts_unstaged_file :
    commitFiles aliceWorld.fs "/tmp" "/vole/alice/files" PostEnv.none.commit [⟨"h1", "a.png"⟩]
      = .error "no such file" ∧
    (postPosts sampleCodec PostEnv.none [1] (HState.start aliceWorld)).st.calls
      = [Call.PostSave ⟨"p1", "hello", [⟨"h1", "a.png"⟩], "alice", "", "", false⟩,
         Call.Move "/tmp/h1" "/vole/alice/files/h1"] ∧
    (postPosts sampleCodec PostEnv.none [1] (HState.start aliceWorld)).st.world = aliceWorld ∧
    (postPosts sampleCodec PostEnv.none [1] (HState.start aliceWorld)).response.status
      = some 500 := by
  refine ⟨rfl, ?_, ?_, ?_⟩ <;> decide

/-- The same request when `h1` is staged: the post is persisted, the blob is in the file
directory of alice and no longer in the staging area, and the response has status 200. -/
theorem postPosts_staged_file :
    postsOf (postPosts sampleCodec PostEnv.none [1] (HState.start aliceStaged)).st.world.posts
      "alice" = [⟨"p1", "hello", [⟨"h1", "a.png"⟩], "alice", "", "", false⟩] ∧
    (postPosts sampleCodec PostEnv.none [1] (HState.start aliceStaged)).st.world.fs
      = [("/vole/alice/files/h1", [1, 2, 3])] ∧
    (postPosts sampleCodec PostEnv.none [1] (HState.start aliceStaged)).response.status
      = some 200 := by
  decide

end Vole
